import Mathlib

/-! Verification of the segment-averaged training/evaluation loop of
`src/main.py` (VideoNet). Python floats are modelled as rationals (ℚ) for
the metric bookkeeping and as reals (ℝ) where logarithms and exponentials
appear (log-softmax). A Python `ZeroDivisionError` is modelled as `none`.
-/

/-- Model of the `AverageMeter` class (src/main.py lines 255-270): fields
`val`, `avg`, `sum`, `count`, all numeric (here ℚ). -/
structure AverageMeter where
  val : ℚ
  avg : ℚ
  sum : ℚ
  count : ℚ
deriving DecidableEq

/-- Model of `AverageMeter.reset` (also run by `__init__`): zeroes all four
fields. -/
def AverageMeter.reset : AverageMeter := ⟨0, 0, 0, 0⟩

/-- Model of `AverageMeter.update(val, n)` (src/main.py lines 266-270):
`val = v`, `sum += v*n`, `count += n`, `avg = sum/count`. Python raises
`ZeroDivisionError` when the updated count is zero; this is modelled by
returning `none`. -/
def AverageMeter.update (m : AverageMeter) (v n : ℚ) : Option AverageMeter :=
  let s := m.sum + v * n
  let c := m.count + n
  if c = 0 then none
  else some ⟨v, s / c, s, c⟩

/-- Run a sequence of `update` calls in order, propagating a
division-by-zero error. -/
def runUpdates : AverageMeter → List (ℚ × ℚ) → Option AverageMeter
  | m, [] => some m
  | m, p :: ps =>
    match m.update p.1 p.2 with
    | none => none
    | some m1 => runUpdates m1 ps

/-- Sum of `value * weight` over a list of update pairs. -/
def wsum (ps : List (ℚ × ℚ)) : ℚ := (ps.map fun p => p.1 * p.2).sum

/-- Sum of the weights over a list of update pairs. -/
def wtot (ps : List (ℚ × ℚ)) : ℚ := (ps.map Prod.snd).sum

lemma runUpdates_fields :
    ∀ (ps : List (ℚ × ℚ)) (m0 m : AverageMeter),
      runUpdates m0 ps = some m →
      m.sum = m0.sum + wsum ps ∧
      m.count = m0.count + wtot ps ∧
      (ps = [] → m = m0) ∧
      m.val = (ps.map Prod.fst).getLastD m0.val ∧
      (ps ≠ [] → m.avg = m.sum / m.count) := by
  intro ps
  induction ps with
  | nil =>
    intro m0 m h
    simp only [runUpdates, Option.some.injEq] at h
    subst h
    simp [wsum, wtot]
  | cons p ps ih =>
    intro m0 m h
    simp only [runUpdates, AverageMeter.update] at h
    by_cases hc : m0.count + p.2 = 0
    · simp [hc] at h
    · simp only [hc, if_neg, if_false] at h
      obtain ⟨hsum, hcount, hnil, hval, havg⟩ := ih _ m h
      refine ⟨?_, ?_, ?_, ?_, ?_⟩
      · simp only [hsum, wsum, List.map_cons, List.sum_cons]
        ring
      · simp only [hcount, wtot, List.map_cons, List.sum_cons]
        ring
      · intro hcontra
        exact absurd hcontra (List.cons_ne_nil p ps)
      · rw [List.map_cons, List.getLastD_cons]
        exact hval
      · intro _
        by_cases hps : ps = []
        · subst hps
          have hm := hnil rfl
          subst hm
          simp
        · exact havg hps

/-- C1: after any sequence of `update(value, weight)` calls on a reset
`AverageMeter` that completes without a division-by-zero error, `avg` equals
the weighted mean of all supplied pairs, `sum` equals the sum of
`value*weight`, `count` equals the sum of the weights, and `val` equals the
last value supplied. -/
theorem averageMeter_tracks_weighted_mean (ps : List (ℚ × ℚ)) (m : AverageMeter)
    (h : runUpdates AverageMeter.reset ps = some m) (hne : ps ≠ []) :
    m.avg = wsum ps / wtot ps ∧ m.sum = wsum ps ∧ m.count = wtot ps ∧
    m.val = (ps.map Prod.fst).getLastD 0 := by
  obtain ⟨hsum, hcount, _, hval, havg⟩ := runUpdates_fields ps AverageMeter.reset m h
  have hs : m.sum = wsum ps := by simpa [AverageMeter.reset] using hsum
  have hc : m.count = wtot ps := by simpa [AverageMeter.reset] using hcount
  refine ⟨?_, hs, hc, by simpa [AverageMeter.reset] using hval⟩
  rw [havg hne, hs, hc]

theorem averageMeter_tracks_weighted_mean_check :
    (⟨3, 3, 3, 1⟩ : AverageMeter).avg = wsum [(3, 1)] / wtot [(3, 1)] ∧
    (⟨3, 3, 3, 1⟩ : AverageMeter).sum = wsum [(3, 1)] ∧
    (⟨3, 3, 3, 1⟩ : AverageMeter).count = wtot [(3, 1)] ∧
    (⟨3, 3, 3, 1⟩ : AverageMeter).val = ([(3, 1)].map Prod.fst).getLastD 0 :=
  averageMeter_tracks_weighted_mean [(3, 1)] ⟨3, 3, 3, 1⟩
    (by simp [runUpdates, AverageMeter.update, AverageMeter.reset]) (by simp)

/-- C7 counterexample: the public interface of `AverageMeter.update` accepts
the weight `n = 0`, and a first call `update(5, 0)` on a reset meter leaves
`count = 0`, so the statement `avg = sum / count` divides by zero (a Python
`ZeroDivisionError`, modelled as `none`). -/
theorem averageMeter_update_zero_weight_divzero :
    AverageMeter.update AverageMeter.reset 5 0 = none := by
  simp [AverageMeter.update, AverageMeter.reset]

lemma runUpdates_isSome_of_pos :
    ∀ (ps : List (ℚ × ℚ)) (m0 : AverageMeter), 0 ≤ m0.count →
      (∀ p ∈ ps, 0 < p.2) → (runUpdates m0 ps).isSome = true := by
  intro ps
  induction ps with
  | nil => intro m0 _ _; simp [runUpdates]
  | cons p ps ih =>
    intro m0 hc hp
    have hpos : 0 < m0.count + p.2 :=
      add_pos_of_nonneg_of_pos hc (hp p (List.mem_cons_self p ps))
    have hne : ¬ m0.count + p.2 = 0 := ne_of_gt hpos
    simp only [runUpdates, AverageMeter.update, hne, if_neg, if_false]
    exact ih _ (le_of_lt hpos) (fun q hq => hp q (List.mem_cons_of_mem p hq))

/-- C7 amended: when every weight passed to `update` is strictly positive
(as in all call sites of src/main.py, which pass the default `1` or a batch
size), `count` stays strictly positive, the division `avg = sum / count`
never divides by zero, and the whole sequence of updates succeeds. -/
theorem averageMeter_no_divzero_pos_weights (ps : List (ℚ × ℚ))
    (hp : ∀ p ∈ ps, 0 < p.2) :
    (runUpdates AverageMeter.reset ps).isSome = true :=
  runUpdates_isSome_of_pos ps AverageMeter.reset (by simp [AverageMeter.reset]) hp

theorem averageMeter_no_divzero_pos_weights_check :
    (runUpdates AverageMeter.reset [(7, 1)]).isSome = true :=
  averageMeter_no_divzero_pos_weights [(7, 1)] (by simp)

/-- Rank of the true class `t` in one row of logits, as produced by
`output.topk(maxk, 1, True, True)` in `accuracy` (src/main.py lines
283-296): the number of classes ranked strictly ahead of `t` when classes
are ordered by score descending, ties broken deterministically by index
ascending. `t` is among the top `k` predictions iff `rankOf row t < k`. -/
def rankOf {C : ℕ} {α : Type} [LinearOrder α] (row : Fin C → α) (t : Fin C) : ℕ :=
  (Finset.univ.filter fun j => row t < row j ∨ (row j = row t ∧ j < t)).card

/-- Model of one entry of the result list of `accuracy(output, target, topk)`
(src/main.py lines 283-296) for a single rank `k`: the number of batch rows
whose true label lies among the top `k` predictions, times `100 / batch_size`
(the code computes `correct_k.mul_(100.0 / batch_size)`). -/
def accuracyAt {B C : ℕ} {α : Type} [LinearOrder α]
    (output : Fin B → Fin C → α) (target : Fin B → Fin C) (k : ℕ) : ℚ :=
  (((Finset.univ.filter fun b => rankOf (output b) (target b) < k).card : ℚ)) * (100 / (B : ℚ))

/-- Model of `accuracy(output, target, topk)` (src/main.py lines 283-296):
one percentage per requested rank, in order. -/
def accuracy {B C : ℕ} {α : Type} [LinearOrder α]
    (output : Fin B → Fin C → α) (target : Fin B → Fin C) (topk : List ℕ) : List ℚ :=
  topk.map (accuracyAt output target)

lemma rankOf_lt_classes {C : ℕ} {α : Type} [LinearOrder α]
    (row : Fin C → α) (t : Fin C) : rankOf row t < C := by
  have hsub : (Finset.univ.filter fun j => row t < row j ∨ (row j = row t ∧ j < t))
      ⊆ Finset.univ.erase t := by
    intro j hj
    rcases Finset.mem_filter.mp hj with ⟨-, hcond⟩
    refine Finset.mem_erase.mpr ⟨?_, Finset.mem_univ j⟩
    rintro rfl
    rcases hcond with hlt | ⟨-, hlt⟩
    · exact lt_irrefl _ hlt
    · exact lt_irrefl _ hlt
  have hcard : rankOf row t ≤ (Finset.univ.erase t).card :=
    Finset.card_le_card hsub
  have herase : (Finset.univ.erase t).card = C - 1 := by
    rw [Finset.card_erase_of_mem (Finset.mem_univ t)]
    simp
  have hCpos : 0 < C := t.pos
  omega

/-- C6: for requested ranks `1 ≤ k1 ≤ k2 ≤ classes` on a nonempty batch,
the `accuracy` result is monotone in the rank, and the result at
`k = classes` is exactly 100 percent. -/
theorem accuracy_topk_monotone {B C : ℕ} {α : Type} [LinearOrder α]
    (output : Fin B → Fin C → α) (target : Fin B → Fin C) (k1 k2 : ℕ)
    (hB : 0 < B) (hk1 : 1 ≤ k1) (h12 : k1 ≤ k2) (h2C : k2 ≤ C) :
    accuracyAt output target k1 ≤ accuracyAt output target k2 ∧
    accuracyAt output target C = 100 := by
  constructor
  · unfold accuracyAt
    have hsub : (Finset.univ.filter fun b => rankOf (output b) (target b) < k1)
        ⊆ Finset.univ.filter fun b => rankOf (output b) (target b) < k2 := by
      intro b hb
      rcases Finset.mem_filter.mp hb with ⟨hmem, hlt⟩
      exact Finset.mem_filter.mpr ⟨hmem, lt_of_lt_of_le hlt h12⟩
    have hcard := Finset.card_le_card hsub
    have hnonneg : (0 : ℚ) ≤ 100 / (B : ℚ) := by positivity
    exact mul_le_mul_of_nonneg_right (by exact_mod_cast hcard) hnonneg
  · unfold accuracyAt
    have hall : (Finset.univ.filter fun b => rankOf (output b) (target b) < C)
        = Finset.univ := by
      apply Finset.filter_true_of_mem
      intro b _
      exact rankOf_lt_classes (output b) (target b)
    rw [hall, Finset.card_univ, Fintype.card_fin]
    have hBne : (B : ℚ) ≠ 0 := by exact_mod_cast hB.ne'
    field_simp

theorem accuracy_topk_monotone_check :
    accuracyAt ![![(3 : ℕ), 1, 2], ![0, 5, 4]] ![(0 : Fin 3), 2] 1 ≤
      accuracyAt ![![(3 : ℕ), 1, 2], ![0, 5, 4]] ![(0 : Fin 3), 2] 2 ∧
    accuracyAt ![![(3 : ℕ), 1, 2], ![0, 5, 4]] ![(0 : Fin 3), 2] 3 = 100 :=
  accuracy_topk_monotone ![![(3 : ℕ), 1, 2], ![0, 5, 4]] ![(0 : Fin 3), 2] 1 2
    (by decide) (by decide) (by decide) (by decide)

/-- Model of `F.log_softmax(x, dim=1)` applied to one row: subtracts the
logarithm of the row's sum of exponentials from every entry. -/
noncomputable def logSoftmax {C : ℕ} (row : Fin C → ℝ) : Fin C → ℝ :=
  fun c => row c - Real.log (∑ j, Real.exp (row j))

lemma rankOf_sub_const {C : ℕ} (row : Fin C → ℝ) (a : ℝ) (t : Fin C) :
    rankOf (fun j => row j - a) t = rankOf row t := by
  unfold rankOf
  congr 1
  apply Finset.filter_congr
  intro j _
  simp only [sub_lt_sub_iff_right, sub_left_inj]

/-- C10: applying `F.log_softmax` along the class dimension before
`accuracy` does not change any reported top-k percentage: per row it
subtracts one constant from all scores, which preserves both strict
comparisons and ties, hence the rank of the true label and the whole
result list. -/
theorem accuracy_logSoftmax_invariant {B C : ℕ}
    (output : Fin B → Fin C → ℝ) (target : Fin B → Fin C) (topk : List ℕ) :
    accuracy (fun b => logSoftmax (output b)) target topk = accuracy output target topk := by
  have hb : ∀ b : Fin B, rankOf (logSoftmax (output b)) (target b) = rankOf (output b) (target b) :=
    fun b => rankOf_sub_const (output b) (Real.log (∑ j, Real.exp (output b j))) (target b)
  have hAt : ∀ k : ℕ, accuracyAt (fun b => logSoftmax (output b)) target k
      = accuracyAt output target k := by
    intro k
    simp only [accuracyAt, hb]
  unfold accuracy
  rw [show accuracyAt (fun b => logSoftmax (output b)) target = accuracyAt output target from
    funext hAt]

/-- Model of the forward computation of `train` (src/main.py lines
161-164): `output = torch.stack([model(input_var[:, i]) for i in
range(num_segments)])`, then `output = torch.mean(output, dim=0)`, then
`output = F.log_softmax(output, dim=1)`. `Img` is the opaque type of one
segment's image stack for one clip; `model` maps the batched slice
`input[:, s]` to a `[batch, classes]` logits matrix. -/
noncomputable def trainBatchOutput {Img : Type} {S B C : ℕ}
    (model : (Fin B → Img) → Fin B → Fin C → ℝ)
    (input : Fin B → Fin S → Img) : Fin B → Fin C → ℝ :=
  let stacked : Fin S → Fin B → Fin C → ℝ := fun s => model (fun b => input b s)
  let meaned : Fin B → Fin C → ℝ := fun b c => (∑ s, stacked s b c) / (S : ℝ)
  fun b => logSoftmax (meaned b)

/-- Modelled from the spec's wording of the training-time aggregation
policy: per-segment logits, stacked `[segments, batch, classes]`,
elementwise mean across the segment axis, then a log-softmax
normalization along the class dimension. -/
noncomputable def specTrainAggregate {Img : Type} {S B C : ℕ}
    (model : (Fin B → Img) → Fin B → Fin C → ℝ)
    (input : Fin B → Fin S → Img) : Fin B → Fin C → ℝ :=
  fun b c =>
    (∑ s, model (fun b2 => input b2 s) b c) / (S : ℝ)
      - Real.log (∑ j, Real.exp ((∑ s, model (fun b2 => input b2 s) b j) / (S : ℝ)))

/-- C2: the train step's forward computation is exactly the spec's
stack/mean/log-softmax pipeline, and for `segments = 1` it degenerates to
the single-segment model output passed through log-softmax. -/
theorem train_aggregation_pipeline {Img : Type} {S B C : ℕ}
    (model : (Fin B → Img) → Fin B → Fin C → ℝ) (input : Fin B → Fin S → Img) :
    trainBatchOutput model input = specTrainAggregate model input
    ∧ ∀ (input1 : Fin B → Fin 1 → Img),
        trainBatchOutput model input1
          = fun b => logSoftmax (fun c => model (fun b2 => input1 b2 0) b c) := by
  constructor
  · funext b c
    simp only [trainBatchOutput, specTrainAggregate, logSoftmax]
  · intro input1
    funext b
    have hrow : (fun c => (∑ s : Fin 1, model (fun b2 => input1 b2 s) b c) / ((1 : ℕ) : ℝ))
        = fun c => model (fun b2 => input1 b2 0) b c := by
      funext c
      simp [Fin.sum_univ_one]
    simp only [trainBatchOutput]
    rw [hrow]

/-- Model of the quantities computed for one validation batch in
`validate` (src/main.py lines 217-225): the loss and the two accuracy
percentages actually recorded. -/
structure ValStep where
  loss : ℝ
  prec1 : ℚ
  prec5 : ℚ

/-- Model of the body of the `validate` loop (src/main.py lines 211-225):
`output = model(input_var)` on the batch exactly as received (type `T`,
opaque, not sliced per segment), `loss = criterion(output, target_var)`,
`prec1, prec5 = accuracy(output.data, target, topk=(1,5))`. -/
noncomputable def validateBatch {T : Type} {B C : ℕ}
    (model : T → Fin B → Fin C → ℝ)
    (criterion : (Fin B → Fin C → ℝ) → (Fin B → Fin C) → ℝ)
    (input : T) (target : Fin B → Fin C) : ValStep :=
  let output := model input
  ⟨criterion output target, accuracyAt output target 1, accuracyAt output target 5⟩

/-- Modelled from the spec's wording of the evaluation-time aggregation
policy: loss and accuracy are computed on the raw single-pass model output,
with no per-segment split, no mean and no log-softmax step. -/
noncomputable def specEvalStep {T : Type} {B C : ℕ}
    (model : T → Fin B → Fin C → ℝ)
    (criterion : (Fin B → Fin C → ℝ) → (Fin B → Fin C) → ℝ)
    (input : T) (target : Fin B → Fin C) : ValStep :=
  ⟨criterion (model input) target, accuracyAt (model input) target 1,
    accuracyAt (model input) target 5⟩

/-- C3: `validate` scores the raw output of a single model call on the
batch as received, with no slicing, segment mean or log-softmax before the
loss and accuracy computation; the omitted log-softmax step is not a no-op
(so the train/eval asymmetry is substantive). -/
theorem validate_raw_output :
    (∀ (T : Type) (B C : ℕ) (model : T → Fin B → Fin C → ℝ)
        (criterion : (Fin B → Fin C → ℝ) → (Fin B → Fin C) → ℝ)
        (input : T) (target : Fin B → Fin C),
        validateBatch model criterion input target = specEvalStep model criterion input target)
    ∧ ∃ x : Fin 2 → ℝ, logSoftmax x ≠ x := by
  constructor
  · intro T B C model criterion input target
    rfl
  · refine ⟨fun _ => 0, fun hcontra => ?_⟩
    have h0 := congrFun hcontra 0
    have hsum : (∑ j : Fin 2, Real.exp (0 : ℝ)) = 2 := by
      simp [Real.exp_zero]
    rw [logSoftmax] at h0
    simp only [hsum] at h0
    have hlog : Real.log 2 = 0 := by linarith [sub_eq_self.mp h0]
    have hpos : 0 < Real.log 2 := Real.log_pos (by norm_num)
    linarith

/-- Model of one saved checkpoint record as passed to `save_checkpoint`
(src/main.py lines 132-138), restricted to the scalar bookkeeping fields
(`arch`, `state_dict` and `optimizer` are opaque). -/
structure Checkpoint where
  epoch : ℕ
  best_prec1 : ℚ
  is_best : Bool
deriving DecidableEq

/-- Model of the end of one iteration of the epoch loop (src/main.py lines
118-138): when `(epoch + 1) % eval_freq == 0` or `epoch == epochs - 1`, the
validation score `score epoch` is compared to the running best, `is_best`
is computed with the old best, the best is updated to the max, and a
checkpoint carrying the updated best and the flag is appended
unconditionally; otherwise the state is unchanged. The state is the pair
of the running `best_prec1` and the list of checkpoints saved so far. -/
def epochStep (evalFreq epochs : ℕ) (score : ℕ → ℚ)
    (st : ℚ × List Checkpoint) (epoch : ℕ) : ℚ × List Checkpoint :=
  if (epoch + 1) % evalFreq = 0 ∨ epoch = epochs - 1 then
    let prec1 := score epoch
    let newBest := max prec1 st.1
    (newBest, st.2 ++ [⟨epoch + 1, newBest, decide (st.1 < prec1)⟩])
  else st

/-- Model of the epoch loop of `main` (src/main.py line 118): epochs
`start_epoch, ..., epochs - 1` in order, starting from the (possibly
resumed) best value `best0` and an empty list of saved checkpoints. -/
def trainLoop (startEpoch epochs evalFreq : ℕ) (score : ℕ → ℚ) (best0 : ℚ) :
    ℚ × List Checkpoint :=
  (List.range' startEpoch (epochs - startEpoch)).foldl
    (epochStep evalFreq epochs score) (best0, [])

/-- C4: whenever the evaluation branch fires, exactly one checkpoint is
appended (so `save_checkpoint` is always called there, new best or not),
its `is_best` flag is true iff the new score strictly exceeds the old
best (equal scores leave it false), and both the recorded and the running
`best_prec1` are updated to the max of the two. -/
theorem checkpoint_save_decision (evalFreq epochs : ℕ) (score : ℕ → ℚ)
    (st : ℚ × List Checkpoint) (epoch : ℕ)
    (h : (epoch + 1) % evalFreq = 0 ∨ epoch = epochs - 1) :
    ∃ cp : Checkpoint,
      (epochStep evalFreq epochs score st epoch).2 = st.2 ++ [cp] ∧
      (cp.is_best = true ↔ st.1 < score epoch) ∧
      cp.best_prec1 = max (score epoch) st.1 ∧
      (epochStep evalFreq epochs score st epoch).1 = max (score epoch) st.1 := by
  refine ⟨⟨epoch + 1, max (score epoch) st.1, decide (st.1 < score epoch)⟩, ?_, ?_, rfl, ?_⟩
  · simp [epochStep, h]
  · simp
  · simp [epochStep, h]

theorem checkpoint_save_decision_check :
    ∃ cp : Checkpoint,
      (epochStep 1 1 (fun _ => 0) (0, []) 0).2 = ([] : List Checkpoint) ++ [cp] ∧
      (cp.is_best = true ↔ (0 : ℚ) < (fun _ => (0 : ℚ)) 0) ∧
      cp.best_prec1 = max ((fun _ => (0 : ℚ)) 0) 0 ∧
      (epochStep 1 1 (fun _ => 0) (0, []) 0).1 = max ((fun _ => (0 : ℚ)) 0) 0 :=
  checkpoint_save_decision 1 1 (fun _ => 0) (0, []) 0 (Or.inl (by decide))

lemma foldl_epochStep_invariant (evalFreq epochs : ℕ) (score : ℕ → ℚ) (b0 : ℚ) :
    ∀ (l : List ℕ) (st : ℚ × List Checkpoint), b0 ≤ st.1 →
      (∀ c ∈ st.2, b0 ≤ c.best_prec1) →
      b0 ≤ (l.foldl (epochStep evalFreq epochs score) st).1 ∧
      ∀ c ∈ (l.foldl (epochStep evalFreq epochs score) st).2, b0 ≤ c.best_prec1 := by
  intro l
  induction l with
  | nil => intro st h1 h2; exact ⟨h1, h2⟩
  | cons e l ih =>
    intro st h1 h2
    simp only [List.foldl_cons]
    apply ih
    · unfold epochStep
      by_cases hfire : (e + 1) % evalFreq = 0 ∨ e = epochs - 1
      · simp only [hfire, if_true]
        exact le_trans h1 (le_max_right _ _)
      · simpa [hfire] using h1
    · unfold epochStep
      by_cases hfire : (e + 1) % evalFreq = 0 ∨ e = epochs - 1
      · simp only [hfire, if_true]
        intro c hc
        rcases List.mem_append.mp hc with hold | hnew
        · exact h2 c hold
        · have hc1 : c = ⟨e + 1, max (score e) st.1, decide (st.1 < score e)⟩ :=
            List.mem_singleton.mp hnew
          subst hc1
          exact le_trans h1 (le_max_right _ _)
      · simpa [hfire] using h2

/-- C8: across one run of the epoch loop started (possibly after a resume)
with best value `best0`, every checkpoint saved during the run records a
`best_prec1` at least `best0`, whatever the later validation scores are. -/
theorem best_prec1_monotone (startEpoch epochs evalFreq : ℕ) (score : ℕ → ℚ)
    (best0 : ℚ) (cp : Checkpoint)
    (hcp : cp ∈ (trainLoop startEpoch epochs evalFreq score best0).2) :
    best0 ≤ cp.best_prec1 := by
  have h := foldl_epochStep_invariant evalFreq epochs score best0
    (List.range' startEpoch (epochs - startEpoch)) (best0, []) le_rfl (by simp)
  exact h.2 cp hcp

theorem best_prec1_monotone_check :
    (0 : ℚ) ≤ (Checkpoint.mk 1 (max 0 0) (decide ((0 : ℚ) < 0))).best_prec1 :=
  best_prec1_monotone 0 1 1 (fun _ => 0) 0 ⟨1, max 0 0, decide ((0 : ℚ) < 0)⟩
    (by simp [trainLoop, epochStep])

/-- Model of the primary checkpoint path built by `save_checkpoint`
(src/main.py lines 246-249): `'_'.join((args.snapshot_pref,
'checkpoint.pth.tar'))` then `os.path.join('save_models', filename)`.
Paths are modelled as character lists; `p` is the snapshot-name relative
path piece. -/
def checkpointFullPath (p : List Char) : List Char :=
  "save_models".data ++ "/".data ++ (p ++ "_".data ++ "checkpoint.pth.tar".data)

/-- Model of the best-model path built by `save_checkpoint` (src/main.py
lines 250-252): `'_'.join((args.snapshot_pref, 'model_best.pth.tar'))`,
with no `os.path.join('save_models', ...)` applied. -/
def bestModelName (p : List Char) : List Char :=
  p ++ "_".data ++ "model_best.pth.tar".data

/-- C9: for a snapshot name without a path separator, the primary
checkpoint file goes under the `save_models` directory while the best-model
copy is a bare filename with no separator at all (so it lands in the
working directory): the two artifacts live in different directories. -/
theorem save_paths_diverge (p : List Char) (h : '/' ∉ p) :
    checkpointFullPath p = "save_models/".data ++ (p ++ "_checkpoint.pth.tar".data) ∧
    bestModelName p = p ++ "_model_best.pth.tar".data ∧
    (checkpointFullPath p).take 12 = "save_models/".data ∧
    '/' ∉ bestModelName p := by
  refine ⟨?_, ?_, ?_, ?_⟩
  · show "save_models".data ++ "/".data ++ (p ++ "_".data ++ "checkpoint.pth.tar".data)
      = "save_models/".data ++ (p ++ "_checkpoint.pth.tar".data)
    simp [List.append_assoc]
  · show p ++ "_".data ++ "model_best.pth.tar".data = p ++ "_model_best.pth.tar".data
    simp [List.append_assoc]
  · have hsplit : checkpointFullPath p
        = "save_models/".data ++ (p ++ "_checkpoint.pth.tar".data) := by
      show "save_models".data ++ "/".data ++ (p ++ "_".data ++ "checkpoint.pth.tar".data)
        = "save_models/".data ++ (p ++ "_checkpoint.pth.tar".data)
      simp [List.append_assoc]
    rw [hsplit]
    have hlen : ("save_models/".data).length = 12 := by decide
    rw [show (12 : ℕ) = ("save_models/".data).length from hlen.symm]
    exact List.take_left _ _
  · intro hmem
    rcases List.mem_append.mp hmem with hmem2 | htail
    · rcases List.mem_append.mp hmem2 with hp | hu
      · exact h hp
      · revert hu; decide
    · revert htail; decide

theorem save_paths_diverge_check :
    checkpointFullPath "snap".data
        = "save_models/".data ++ ("snap".data ++ "_checkpoint.pth.tar".data) ∧
    bestModelName "snap".data = "snap".data ++ "_model_best.pth.tar".data ∧
    (checkpointFullPath "snap".data).take 12 = "save_models/".data ∧
    '/' ∉ bestModelName "snap".data :=
  save_paths_diverge ("snap".data) (by decide)

/-- Events of the setup phase of `main` (src/main.py lines 23-59) that
allocate resources, in source order. `modelCreated` covers lines 39-40
(`ShuffleNet` construction, `DataParallel` wrapping and the `.cuda()`
placement on accelerator devices). -/
inductive SetupEvent
  | modelCreated
  | finetuneLoaded
  | criterionCreated
  | optimizerCreated
  | schedulerCreated
deriving DecidableEq

/-- Fatal startup errors of `main` (src/main.py lines 34-35 and 52-53),
both raised as `ValueError`. -/
inductive SetupError
  | unknownDataset
  | unknownLossType
deriving DecidableEq

/-- Arguments of `main` relevant to the setup phase. `finetuneExists`
models the `os.path.isfile(args.finetune)` check. -/
structure Args where
  dataset : String
  loss_type : String
  finetune : Bool
  finetuneExists : Bool

/-- Model of the dataset dispatch of `main` (src/main.py lines 26-35). -/
def numClassOf (d : String) : Option ℕ :=
  if d = "ucf101" then some 101
  else if d = "hmdb51" then some 51
  else if d = "kinetics" then some 400
  else if d = "meitu" then some 50
  else none

/-- Model of the setup phase of `main` (src/main.py lines 23-59) as the
ordered list of resource-allocation events performed before the phase
either aborts (`some` error) or completes (`none`). The dataset dispatch
runs first; the model is created and placed on devices (lines 39-40), an
existing finetune source is loaded (lines 41-47), and only then is the
loss type inspected (lines 50-53). -/
def mainSetup (a : Args) : List SetupEvent × Option SetupError :=
  match numClassOf a.dataset with
  | none => ([], some SetupError.unknownDataset)
  | some _ =>
    let evs := [SetupEvent.modelCreated]
      ++ (if a.finetune && a.finetuneExists then [SetupEvent.finetuneLoaded] else [])
    if a.loss_type = "nll" then
      (evs ++ [SetupEvent.criterionCreated, SetupEvent.optimizerCreated,
        SetupEvent.schedulerCreated], none)
    else (evs, some SetupError.unknownLossType)

/-- C5 counterexample: with the known dataset `ucf101` and the unknown loss
type `mse`, `main` does abort with the unknown-loss error, but the model
has already been constructed and placed on accelerator devices when it
does, so the abort does not happen before resource allocation. -/
theorem loss_check_after_model_created :
    mainSetup ⟨"ucf101", "mse", false, false⟩
        = ([SetupEvent.modelCreated], some SetupError.unknownLossType) ∧
    SetupEvent.modelCreated ∈ (mainSetup ⟨"ucf101", "mse", false, false⟩).1 := by
  constructor
  · simp [mainSetup, numClassOf]
  · simp [mainSetup, numClassOf]

/-- C5 amended: for every run with a known dataset and a loss-type argument
other than the known identifier, the setup phase fails fatally with the
unknown-loss error, but only after the model has been constructed and
placed on accelerator devices; the abort does come before the criterion,
the optimizer and the learning-rate scheduler are created. -/
theorem loss_error_after_model_creation (a : Args)
    (hd : numClassOf a.dataset ≠ none) (hl : a.loss_type ≠ "nll") :
    (mainSetup a).2 = some SetupError.unknownLossType ∧
    SetupEvent.modelCreated ∈ (mainSetup a).1 ∧
    SetupEvent.criterionCreated ∉ (mainSetup a).1 ∧
    SetupEvent.optimizerCreated ∉ (mainSetup a).1 ∧
    SetupEvent.schedulerCreated ∉ (mainSetup a).1 := by
  obtain ⟨n, hn⟩ := Option.ne_none_iff_exists'.mp hd
  unfold mainSetup
  rw [hn]
  simp only [hl, if_neg, if_false]
  by_cases hf : a.finetune && a.finetuneExists
  · simp [hf]
  · simp [hf]

theorem loss_error_after_model_creation_check :
    (mainSetup ⟨"hmdb51", "l2", true, false⟩).2 = some SetupError.unknownLossType ∧
    SetupEvent.modelCreated ∈ (mainSetup ⟨"hmdb51", "l2", true, false⟩).1 ∧
    SetupEvent.criterionCreated ∉ (mainSetup ⟨"hmdb51", "l2", true, false⟩).1 ∧
    SetupEvent.optimizerCreated ∉ (mainSetup ⟨"hmdb51", "l2", true, false⟩).1 ∧
    SetupEvent.schedulerCreated ∉ (mainSetup ⟨"hmdb51", "l2", true, false⟩).1 :=
  loss_error_after_model_creation ⟨"hmdb51", "l2", true, false⟩ (by decide) (by decide)
